import Mathlib

set_option maxRecDepth 8000

/-!
Verification of the `terminfo` library (package `terminfo`, files `parm.go`,
`stack.go`, and the decoder in `terminfo_test.go`).

Part 1 below embeds the parameterized-string evaluator of `parm.go`
(the state-function scanner `scanText`/`scanCode`/... together with the
heterogeneous value stack of lines 394-439 of that file).  Part 2 embeds
the binary terminfo decoder (`decoder.unmarshal` and its helpers).

Modelling conventions:
  * Go byte strings are `List Nat` (each entry a byte value).
  * The heterogeneous `interface{}` stack values become the inductive `V`
    with variants for `int`, `bool`, `byte`, `string` and `nil`.
  * Go `int` is a 64-bit two's-complement integer; arithmetic is performed
    on `Int` and wrapped with `w64` exactly where Go wraps.
  * Go `int16` values are `Int` wrapped with `toInt16` at every operation.
  * The package-level variable `svars [26]interface{}` is threaded through
    the scanner explicitly (type `Bank`), mirroring its role as a global.
  * The state functions (`stateFn`) become the enumeration `St` plus the
    total transition function `stepF`; `run`'s `for state != nil` loop
    becomes `runLoop` with an explicit step budget.  The budget
    `2 * (length + 1) + 2` is proved sufficient (see the termination
    theorems), so `Parm` computes exactly the result of the Go loop.
  * A Go runtime panic (out-of-range index or slice) is the distinguished
    decoder outcome `DErr.panicked`, separate from the returned errors.
-/

namespace Terminfo

/-- 64-bit two's-complement wrap-around, as performed by Go `int` overflow. -/
def w64 (n : Int) : Int :=
  (n + 9223372036854775808) % 18446744073709551616 - 9223372036854775808

/-- The unsigned 64-bit image of a Go `int`, used for the bitwise operators. -/
def u64 (n : Int) : Nat := (n % 18446744073709551616).toNat

/-- Go `ai & bi` on `int`. -/
def and64 (a b : Int) : Int := w64 (Int.ofNat (Nat.land (u64 a) (u64 b)))

/-- Go `ai | bi` on `int`. -/
def or64 (a b : Int) : Int := w64 (Int.ofNat (Nat.lor (u64 a) (u64 b)))

/-- Go `ai ^ bi` on `int`. -/
def xor64 (a b : Int) : Int := w64 (Int.ofNat (Nat.xor (u64 a) (u64 b)))

/-- Go `ai / bi` on `int` (truncated division; `MinInt64 / -1` wraps). -/
def div64 (a b : Int) : Int := w64 (Int.tdiv a b)

/-- Go `ai % bi` on `int` (remainder with the sign of the dividend). -/
def mod64 (a b : Int) : Int := w64 (Int.tmod a b)

/-- Go `^ai` (bitwise complement) on `int`. -/
def not64 (a : Int) : Int := w64 (-a - 1)

/-- A terminfo stack value: the dynamic type of a Go `interface{}` as used by
`parm.go` (`int`, `bool`, `byte`, `string`, or the nil interface). -/
inductive V where
  | i (n : Int)
  | b (v : Bool)
  | c (n : Nat)
  | s (l : List Nat)
  | nil
deriving DecidableEq

/-- `stack.pop` (parm.go): pop the top value, `nil` when empty.  The Go stack
keeps its top at the end of a slice; here the top is the list head. -/
def pop : List V → V × List V
  | [] => (V.nil, [])
  | v :: t => (v, t)

/-- `stack.popInt`: pop and type-assert to `int`, defaulting to `0`. -/
def popI (stk : List V) : Int × List V :=
  match pop stk with
  | (V.i n, t) => (n, t)
  | (_, t) => (0, t)

/-- `stack.popBool`: pop and type-assert to `bool`, defaulting to `false`.
Note that a popped `int` (even a nonzero one) yields `false`. -/
def popB (stk : List V) : Bool × List V :=
  match pop stk with
  | (V.b v, t) => (v, t)
  | (_, t) => (false, t)

/-- `stack.popByte`: pop and type-assert to `byte`, defaulting to `0`. -/
def popC (stk : List V) : Nat × List V :=
  match pop stk with
  | (V.c n, t) => (n, t)
  | (_, t) => (0, t)

/-- `stack.popString`: pop and type-assert to `string`, defaulting to `""`. -/
def popS (stk : List V) : List Nat × List V :=
  match pop stk with
  | (V.s l, t) => (l, t)
  | (_, t) => ([], t)

/-- The 26-slot variable banks (`svars` / `parametizer.dvars`). -/
abbrev Bank := Fin 26 → V

/-- The all-`nil` bank: the zero value of `[26]interface{}`. -/
def nilBank : Bank := fun _ => V.nil

/-- The scanner state of `parm.go`: the fields of `parametizer` except the
process-global `svars`, which is threaded separately (it is a package-level
variable in Go, not a field). -/
structure Pz where
  s : List Nat
  pos : Nat
  nest : Nat
  stk : List V
  skipElse : Bool
  buf : List Nat
  params : Fin 9 → V
  dvars : Bank

/-- The state functions of the scanner (`stateFn` values in `parm.go`). -/
inductive St where
  | scanText
  | scanCode
  | scanFormat
  | pushParam
  | setDSVar
  | getDSVar
  | pushInt
  | scanThen
  | skipText
  | skipThen
  | skipElse
deriving DecidableEq

/-- Decimal/first-digit character for `natToBase` (`Nat.digitChar` analogue,
lowercase letters for bases above 10, as Go `strconv.FormatInt` uses). -/
def digitCh (n : Nat) : Nat := if n < 10 then 48 + n else 87 + n

/-- Digit accumulator for `natToBase` (fuel-driven; the fuel `n + 1` always
suffices because the argument shrinks by division). -/
def natBaseAux (b : Nat) : Nat → Nat → List Nat → List Nat
  | 0, _, acc => acc
  | fuel + 1, n, acc =>
    if n < b then digitCh n :: acc
    else natBaseAux b fuel (n / b) (digitCh (n % b) :: acc)

/-- The base-`b` digits of `n`, most significant first. -/
def natToBase (b n : Nat) : List Nat := natBaseAux b (n + 1) n []

/-- `strconv.Itoa` / `strconv.FormatInt(v, 10)`: decimal bytes of an integer. -/
def itoa (n : Int) : List Nat :=
  if n < 0 then 45 :: natToBase 10 (-n).toNat else natToBase 10 n.toNat

/-- ASCII uppercase of one byte (`strings.ToUpper` on hex output). -/
def upByte (c : Nat) : Nat := if 97 ≤ c ∧ c ≤ 122 then c - 32 else c

/-- `strconv.FormatInt(v, b)`, optionally passed through `strings.ToUpper`. -/
def fmtInt (b : Nat) (upper : Bool) (n : Int) : List Nat :=
  let ds := if n < 0 then 45 :: natToBase b (-n).toNat else natToBase b n.toNat
  if upper then ds.map upByte else ds

/-- Conversion bytes that terminate a format directive in `scanFormat`:
`o`, `d`, `x`, `X`, `s`, `c`. -/
def isVerb (c : Nat) : Bool :=
  c = 111 || c = 100 || c = 120 || c = 88 || c = 115 || c = 99

/-- Bytes that send `scanCode` into `scanFormat` directly: `#`, space, `.`,
and the digits (the `case '#', ' ', '0' .. '9', '.'` arm). -/
def isFmtStart (c : Nat) : Bool :=
  c = 35 || c = 32 || c = 46 || (48 ≤ c && c ≤ 57)

/-- Formatting of a popped integer by `fmt.Fprintf` inside `scanFormat`.
Modelled from the spec for the conversion verb only (`%o`/`%d`/`%x`/`%X`):
flags, width and precision of the Go `fmt` package are not modelled; no
claim concerns the padded output of a format directive. -/
def fmtPrintfInt (f : List Nat) (n : Int) : List Nat :=
  match f.getLast? with
  | some 111 => fmtInt 8 false n
  | some 120 => fmtInt 16 false n
  | some 88 => fmtInt 16 true n
  | _ => itoa n

/-- Formatting of a popped string by `fmt.Fprintf` (verb `s`); see
`fmtPrintfInt` for the modelling convention. -/
def fmtPrintfStr (_f : List Nat) (l : List Nat) : List Nat := l

/-- Formatting of a popped byte by `fmt.Fprintf` (verb `c`); see
`fmtPrintfInt` for the modelling convention. -/
def fmtPrintfByte (_f : List Nat) (c : Nat) : List Nat := [c]

/-- `scanText` (parm.go): copy literal bytes until `%` or end of string.
The Go loop advances byte by byte; here the copied span is produced with
`takeWhile` in one step. -/
def scanTextF (pz : Pz) : Pz × Option St :=
  let rest := pz.s.drop pz.pos
  let pre := rest.takeWhile (fun c => c ≠ 37)
  if pre.length = rest.length then
    ({ pz with buf := pz.buf ++ pre, pos := pz.pos + pre.length }, none)
  else
    ({ pz with buf := pz.buf ++ pre, pos := pz.pos + pre.length + 1 }, some St.scanCode)

/-- `skipText` (parm.go): discard bytes up to and including the next `%`,
then dispatch on the `skipElse` flag; end of string halts the scanner. -/
def skipTextF (pz : Pz) : Pz × Option St :=
  let rest := pz.s.drop pz.pos
  let pre := rest.takeWhile (fun c => c ≠ 37)
  if pre.length = rest.length then
    ({ pz with pos := pz.pos + pre.length }, none)
  else
    ({ pz with pos := pz.pos + pre.length + 1 },
      some (if pz.skipElse then St.skipElse else St.skipThen))

/-- `pushParam` (parm.go): `int(ch - '1')` under Go byte arithmetic, pushing
the selected parameter or `0` when out of range, then skipping the digit. -/
def pushParamF (pz : Pz) : Pz × Option St :=
  match pz.s.get? pz.pos with
  | none => (pz, none)
  | some c =>
    let ai := (c + 256 - 49) % 256
    if h : ai < 9 then
      ({ pz with stk := pz.params ⟨ai, h⟩ :: pz.stk, pos := pz.pos + 1 }, some St.scanText)
    else
      ({ pz with stk := V.i 0 :: pz.stk, pos := pz.pos + 1 }, some St.scanText)

/-- `setDSVar` (parm.go): pop into the static bank (uppercase letter) or the
dynamic bank (lowercase letter); any other byte pops nothing. -/
def setDSVarF (pz : Pz) (sv : Bank) : Pz × Bank × Option St :=
  match pz.s.get? pz.pos with
  | none => (pz, sv, none)
  | some c =>
    if h1 : 65 ≤ c ∧ c ≤ 90 then
      ({ pz with stk := (pop pz.stk).2, pos := pz.pos + 1 },
        Function.update sv ⟨c - 65, by omega⟩ (pop pz.stk).1, some St.scanText)
    else if h2 : 97 ≤ c ∧ c ≤ 122 then
      ({ pz with
         stk := (pop pz.stk).2,
         pos := pz.pos + 1,
         dvars := Function.update pz.dvars ⟨c - 97, by omega⟩ (pop pz.stk).1 },
        sv, some St.scanText)
    else
      ({ pz with pos := pz.pos + 1 }, sv, some St.scanText)

/-- `getDSVar` (parm.go): push from a variable bank.  Faithful to the source:
the lowercase branch also reads `svars` (not `dvars`) — `svars[int(ch-'a')]`
at parm.go line 306. -/
def getDSVarF (pz : Pz) (sv : Bank) : Pz × Bank × Option St :=
  match pz.s.get? pz.pos with
  | none => (pz, sv, none)
  | some c =>
    if h1 : 65 ≤ c ∧ c ≤ 90 then
      ({ pz with stk := sv ⟨c - 65, by omega⟩ :: pz.stk, pos := pz.pos + 1 },
        sv, some St.scanText)
    else if h2 : 97 ≤ c ∧ c ≤ 122 then
      ({ pz with stk := sv ⟨c - 97, by omega⟩ :: pz.stk, pos := pz.pos + 1 },
        sv, some St.scanText)
    else
      ({ pz with pos := pz.pos + 1 }, sv, some St.scanText)

/-- `pushInt` (parm.go): accumulate decimal digits (with Go `int` wrap) and
push on the first non-digit, which is consumed; end of string inside the
number discards it and halts. -/
def pushIntF (pz : Pz) : Pz × Option St :=
  let rest := pz.s.drop pz.pos
  let digits := rest.takeWhile (fun c => 48 ≤ c && c ≤ 57)
  if digits.length = rest.length then
    ({ pz with pos := pz.pos + digits.length }, none)
  else
    ({ pz with
       stk := V.i (digits.foldl (fun a d => w64 (a * 10 + ((d : Int) - 48))) 0) :: pz.stk,
       pos := pz.pos + digits.length + 1 },
      some St.scanText)

/-- `scanThen` (parm.go): advance past `t`, pop the condition with `popBool`
(a non-`bool` value counts as `false`), and either keep scanning (then
branch) or start skipping with `skipElse = false`. -/
def scanThenF (pz : Pz) : Pz × Option St :=
  if (popB pz.stk).1 then
    ({ pz with pos := pz.pos + 1, stk := (popB pz.stk).2 }, some St.scanText)
  else
    ({ pz with pos := pz.pos + 1, stk := (popB pz.stk).2, skipElse := false }, some St.skipText)

/-- `skipThen` (parm.go): one byte of the skipped then-branch; `;` at depth 0
or `e` at depth 0 resumes scanning, `?`/`;` adjust the nesting depth. -/
def skipThenF (pz : Pz) : Pz × Option St :=
  match pz.s.get? pz.pos with
  | none => (pz, none)
  | some c =>
    if c = 59 then
      if pz.nest = 0 then ({ pz with pos := pz.pos + 1 }, some St.scanText)
      else ({ pz with pos := pz.pos + 1, nest := pz.nest - 1 }, some St.skipText)
    else if c = 63 then
      ({ pz with pos := pz.pos + 1, nest := pz.nest + 1 }, some St.skipText)
    else if c = 101 then
      if pz.nest = 0 then ({ pz with pos := pz.pos + 1 }, some St.scanText)
      else ({ pz with pos := pz.pos + 1 }, some St.skipText)
    else ({ pz with pos := pz.pos + 1 }, some St.skipText)

/-- `skipElse` (parm.go): like `skipThen` but `e` does not end the skip. -/
def skipElseF (pz : Pz) : Pz × Option St :=
  match pz.s.get? pz.pos with
  | none => (pz, none)
  | some c =>
    if c = 59 then
      if pz.nest = 0 then ({ pz with pos := pz.pos + 1 }, some St.scanText)
      else ({ pz with pos := pz.pos + 1, nest := pz.nest - 1 }, some St.skipText)
    else if c = 63 then
      ({ pz with pos := pz.pos + 1, nest := pz.nest + 1 }, some St.skipText)
    else ({ pz with pos := pz.pos + 1 }, some St.skipText)

/-- `scanFormat` (parm.go): the byte at the current position opens the format
string `f`; subsequent bytes are accumulated until a conversion verb, which
pops a value of the matching kind and emits the formatted text. -/
def scanFormatF (pz : Pz) : Pz × Option St :=
  let c0 := (pz.s.drop pz.pos).headD 0
  let rest := pz.s.drop (pz.pos + 1)
  let pre := rest.takeWhile (fun c => !isVerb c)
  if pre.length = rest.length then
    ({ pz with pos := pz.pos + 1 + pre.length }, none)
  else
    let verb := (rest.drop pre.length).headD 0
    let f := 37 :: c0 :: (pre ++ [verb])
    let npos := pz.pos + pre.length + 2
    if verb = 115 then
      ({ pz with
         buf := pz.buf ++ fmtPrintfStr f (popS pz.stk).1,
         stk := (popS pz.stk).2,
         pos := npos }, some St.scanText)
    else if verb = 99 then
      ({ pz with
         buf := pz.buf ++ fmtPrintfByte f (popC pz.stk).1,
         stk := (popC pz.stk).2,
         pos := npos }, some St.scanText)
    else
      ({ pz with
         buf := pz.buf ++ fmtPrintfInt f (popI pz.stk).1,
         stk := (popI pz.stk).2,
         pos := npos }, some St.scanText)

/-- The `%i` directive: add 1 (with Go wrap) to each of the first two
parameters that is an `int` (`case 'i'` of `scanCode`). -/
def incParams (p : Fin 9 → V) : Fin 9 → V :=
  let p1 := match p 0 with
    | V.i n => Function.update p 0 (V.i (w64 (n + 1)))
    | _ => p
  match p1 1 with
  | V.i n => Function.update p1 1 (V.i (w64 (n + 1)))
  | _ => p1

/-- The common tail of a `scanCode` branch: `pz.pos++; return scanText`
after appending `out` to the buffer and replacing the stack. -/
def emit (pz : Pz) (out : List Nat) (stk : List V) : Pz × Option St :=
  ({ pz with buf := pz.buf ++ out, stk := stk, pos := pz.pos + 1 }, some St.scanText)

/-- A `scanCode` branch that pushes `v` onto the remainder stack `stk` and
resumes text scanning. -/
def pushV (pz : Pz) (v : V) (stk : List V) : Pz × Option St :=
  ({ pz with stk := v :: stk, pos := pz.pos + 1 }, some St.scanText)

/-- A `scanCode` branch that advances past the directive byte and enters the
sub-state `st` (the `pz.pos++; return <state>` pattern). -/
def goSub (pz : Pz) (st : St) : Pz × Option St :=
  ({ pz with pos := pz.pos + 1 }, some st)

/-- Push the result of a binary `int` operator (pop order: `bi` then `ai`). -/
def arith2 (pz : Pz) (f : Int → Int → Int) : Pz × Option St :=
  pushV pz (V.i (f (popI (popI pz.stk).2).1 (popI pz.stk).1)) (popI (popI pz.stk).2).2

/-- Push the boolean result of an `int` comparison (pop order as `arith2`). -/
def cmp2 (pz : Pz) (f : Int → Int → Bool) : Pz × Option St :=
  pushV pz (V.b (f (popI (popI pz.stk).2).1 (popI pz.stk).1)) (popI (popI pz.stk).2).2

/-- Push the result of a binary `bool` operator (`%A` / `%O`). -/
def logic2 (pz : Pz) (f : Bool → Bool → Bool) : Pz × Option St :=
  pushV pz (V.b (f (popB (popB pz.stk).2).1 (popB pz.stk).1)) (popB (popB pz.stk).2).2

/-- `scanCode` (parm.go): dispatch on the directive byte after `%`.  Branch
order follows the `switch`; unknown bytes fall through to the final
`pz.pos++; return scanText`. -/
def scanCodeF (pz : Pz) : Pz × Option St :=
  match pz.s.get? pz.pos with
  | none => (pz, none)
  | some c =>
    match c with
    | 37 => emit pz [37] pz.stk
    | 58 =>
      (match pz.s.get? (pz.pos + 1) with
       | none => ({ pz with pos := pz.pos + 1 }, none)
       | some _ => goSub pz St.scanFormat)
    | 35 | 32 | 46 | 48 | 49 | 50 | 51 | 52 | 53 | 54 | 55 | 56 | 57 =>
      (pz, some St.scanFormat)
    | 111 => emit pz (fmtInt 8 false (popI pz.stk).1) (popI pz.stk).2
    | 100 => emit pz (itoa (popI pz.stk).1) (popI pz.stk).2
    | 120 => emit pz (fmtInt 16 false (popI pz.stk).1) (popI pz.stk).2
    | 88 => emit pz (fmtInt 16 true (popI pz.stk).1) (popI pz.stk).2
    | 115 => emit pz (popS pz.stk).1 (popS pz.stk).2
    | 99 => emit pz [(popC pz.stk).1] (popC pz.stk).2
    | 112 => goSub pz St.pushParam
    | 80 => goSub pz St.setDSVar
    | 103 => goSub pz St.getDSVar
    | 39 =>
      (match pz.s.get? (pz.pos + 1) with
       | none => ({ pz with pos := pz.pos + 1 }, none)
       | some ch => ({ pz with stk := V.c ch :: pz.stk, pos := pz.pos + 3 }, some St.scanText))
    | 123 => goSub pz St.pushInt
    | 108 => pushV pz (V.i ((popS pz.stk).1.length : Int)) (popS pz.stk).2
    | 43 => arith2 pz (fun a b => w64 (a + b))
    | 45 => arith2 pz (fun a b => w64 (a - b))
    | 42 => arith2 pz (fun a b => w64 (a * b))
    | 47 => arith2 pz (fun a b => if b ≠ 0 then div64 a b else 0)
    | 109 => arith2 pz (fun a b => if b ≠ 0 then mod64 a b else 0)
    | 38 => arith2 pz and64
    | 124 => arith2 pz or64
    | 94 => arith2 pz xor64
    | 61 => cmp2 pz (fun a b => a = b)
    | 62 => cmp2 pz (fun a b => b < a)
    | 60 => cmp2 pz (fun a b => a < b)
    | 65 => logic2 pz (fun a b => a && b)
    | 79 => logic2 pz (fun a b => a || b)
    | 33 => pushV pz (V.b (!(popB pz.stk).1)) (popB pz.stk).2
    | 126 => pushV pz (V.i (not64 (popI pz.stk).1)) (popI pz.stk).2
    | 105 => ({ pz with params := incParams pz.params, pos := pz.pos + 1 }, some St.scanText)
    | 116 => (pz, some St.scanThen)
    | 101 => ({ pz with skipElse := true }, some St.skipText)
    | _ => ({ pz with pos := pz.pos + 1 }, some St.scanText)

/-- One invocation of the current state function (`state = state(pz)` in
`parametizer.run`), with the global static bank threaded through. -/
def stepF : St → Pz → Bank → Pz × Bank × Option St
  | St.scanText, pz, sv => (let r := scanTextF pz; (r.1, sv, r.2))
  | St.scanCode, pz, sv => (let r := scanCodeF pz; (r.1, sv, r.2))
  | St.scanFormat, pz, sv => (let r := scanFormatF pz; (r.1, sv, r.2))
  | St.pushParam, pz, sv => (let r := pushParamF pz; (r.1, sv, r.2))
  | St.setDSVar, pz, sv => setDSVarF pz sv
  | St.getDSVar, pz, sv => getDSVarF pz sv
  | St.pushInt, pz, sv => (let r := pushIntF pz; (r.1, sv, r.2))
  | St.scanThen, pz, sv => (let r := scanThenF pz; (r.1, sv, r.2))
  | St.skipText, pz, sv => (let r := skipTextF pz; (r.1, sv, r.2))
  | St.skipThen, pz, sv => (let r := skipThenF pz; (r.1, sv, r.2))
  | St.skipElse, pz, sv => (let r := skipElseF pz; (r.1, sv, r.2))

/-- The `for state := scanText; state != nil` loop of `parametizer.run`,
with an explicit step budget.  `none` in the third component means the Go
loop has terminated; `some st` means the budget ran out mid-run (which the
termination theorems rule out for the budget used by `Parm`). -/
def runLoop : Nat → St → Pz → Bank → Pz × Bank × Option St
  | 0, st, pz, sv => (pz, sv, some st)
  | n + 1, st, pz, sv =>
    match stepF st pz sv with
    | (pz1, sv1, none) => (pz1, sv1, none)
    | (pz1, sv1, some st1) => runLoop n st1 pz1 sv1

/-- Step budget used by `Parm`; proved sufficient for every template. -/
def fuelFor (s : List Nat) : Nat := 2 * (s.length + 1) + 2

/-- The initial `parametizer` state built by `newParametizer`/`Parm`: fresh
position, stack, buffer and dynamic bank, parameters copied from the call
(missing ones are the nil interface). -/
def initPz (s : List Nat) (ps : List V) : Pz :=
  { s := s, pos := 0, nest := 0, stk := [], skipElse := false, buf := [],
    params := fun i => ps.getD i V.nil, dvars := nilBank }

/-- `Parm` (parm.go): expand a parameterized string against parameters `ps`
with the process-wide static bank `sv`. -/
def Parm (sv : Bank) (s : List Nat) (ps : List V) : List Nat :=
  (runLoop (fuelFor s) St.scanText (initPz s ps) sv).1.buf

/-- Bytes of an ASCII string literal, for readable concrete templates. -/
def strBytes (s : String) : List Nat := s.toList.map Char.toNat

/-! ## Part 2: the binary terminfo decoder

Embedding of `decoder.unmarshal` and its helpers (the decoder source file,
whose contents appear in `terminfo_test.go` lines 31-378).  All `int16`
quantities are `Int` values wrapped with `toInt16`; a Go runtime panic
(out-of-range index or slice bound) is the outcome `DErr.panicked`. -/

/-- Signed 16-bit two's-complement wrap-around (Go `int16` conversion and
arithmetic overflow). -/
def toInt16 (n : Int) : Int := (n + 32768) % 65536 - 32768

/-- Decoder outcomes that are not success: the four declared error values of
the package plus `panicked`, which models a Go runtime panic (not a returned
error). -/
inductive DErr where
  | smallFile
  | badString
  | bigSection
  | badHeader
  | panicked
deriving DecidableEq

/-- The five shorts of a terminfo header (`header [5]int16`).  For the
standard block `f0`..`f4` are `lenNames`, `lenBools`, `lenNumbers`,
`lenStrings`, `lenTable`; for the extended block they are `lenExtBools`,
`lenExtNumbers`, `lenExtStrings`, `lenExtOff`, `lenTable`. -/
structure Header where
  f0 : Int
  f1 : Int
  f2 : Int
  f3 : Int
  f4 : Int
deriving DecidableEq

/-- The magic number of terminfo files (`0x11a`). -/
def magicN : Int := 282

/-- `header.lenBytes`: the header is 5 shorts, 10 bytes. -/
def hlBytes : Int := 10

/-- `header.lenCaps`: total bytes of the standard capability sections
(including the alignment byte), computed in `int16` arithmetic. -/
def lenCaps (h : Header) : Int :=
  toInt16 (h.f0 + h.f1 + Int.tmod (toInt16 (h.f0 + h.f1)) 2 + h.f2 * 2 + h.f3 * 2 + h.f4)

/-- `header.lenExtCaps`: total bytes of the extended capability sections. -/
def lenExtCaps (h : Header) : Int :=
  toInt16 (h.f0 + Int.tmod h.f0 2 + h.f1 * 2 + h.f3 * 2 + h.f4)

/-- Modelled from the spec: the known standard boolean-capability count
(`caps.BoolCount`).  The `caps` package is not part of the sources; the
spec fixes only that it is "the library's known standard-capability count",
and no claim depends on the exact value (44 standard booleans). -/
def boolCount : Int := 44

/-- Modelled from the spec: the known numeric-capability count
(`caps.NumberCount`, 39 standard numerics); see `boolCount`. -/
def numberCount : Int := 39

/-- Modelled from the spec: the known string-capability count
(`caps.StringCount`, 414 standard strings); see `boolCount`. -/
def stringCount : Int := 414

/-- `header.excessCaps`: a declared standard section larger than the known
capability count. -/
def excessCaps (h : Header) : Bool :=
  h.f1 > boolCount || h.f2 > numberCount || h.f3 > stringCount

/-- `header.badLenExtOff`: the extended offset count must equal
`lenExtBools + lenExtNumbers + 2*lenExtStrings` (sum in `int16`). -/
def badLenExtOff (h : Header) : Bool :=
  toInt16 (h.f0 + h.f1 + h.f2 * 2) ≠ h.f3

/-- `header.extNameOffsOff`: offset from the current position to the first
name offset of the extended block. -/
def extNameOffsOff (h : Header) : Int :=
  toInt16 (Int.tmod h.f0 2 + h.f1 + h.f3)

/-- `header.lenExtNameOffs`: byte length of the extended name-offset list. -/
def lenExtNameOffs (h : Header) : Int :=
  toInt16 ((h.f3 - h.f2) * 2)

/-- The decoded `Terminfo` record.  Maps become association lists. -/
structure Ti where
  names : List (List Nat)
  bools : List Bool
  numbers : List Int
  strings : List (List Nat)
  extBools : List (List Nat × Bool)
  extNumbers : List (List Nat × Int)
  extStrings : List (List Nat × List Nat)
deriving DecidableEq

/-- `new(Terminfo)`: Go zero value of the record. -/
def Ti.init : Ti :=
  { names := [], bools := List.replicate 44 false, numbers := List.replicate 39 0,
    strings := List.replicate 414 [], extBools := [], extNumbers := [], extStrings := [] }

/-- Go map assignment `m[k] = v` on an association list. -/
def upsert {α : Type} (k : List Nat) (v : α) (m : List (List Nat × α)) :
    List (List Nat × α) :=
  if m.any (fun p => p.1 = k) then m.map (fun p => if p.1 = k then (k, v) else p)
  else m ++ [(k, v)]

/-- The decoder state (`decoder` struct). -/
structure Dec where
  pos : Int
  extNameOffPos : Int
  h : Header
  buf : List Nat
  extStringTable : List Nat
  extNameTable : List Nat
  ti : Ti
deriving DecidableEq

/-- `littleEndian(i, buf)`: decode the signed short at byte offset `i`;
`none` models the index panic when `i` or `i+1` is out of range. -/
def littleEndianAt (i : Int) (buf : List Nat) : Option Int :=
  if 0 ≤ i ∧ i + 1 < (buf.length : Int) then
    some (toInt16 (256 * buf.getD (i + 1).toNat 0 + buf.getD i.toNat 0))
  else none

/-- One pass of the `indexNull` loop.  Faithful to the source order: the
byte `buf[off]` is read (and can panic, `none`) *before* the bound test
`off >= int16(len(buf))` that is meant to produce `-1`.  The fuel only
bounds the recursion; `buf.length + 2` iterations always suffice because
`off` increases until the scan returns or faults. -/
def indexNullGo (buf : List Nat) : Nat → Int → Option Int
  | 0, _ => none
  | fuel + 1, off =>
    if 0 ≤ off ∧ off < (buf.length : Int) then
      if buf.getD off.toNat 0 = 0 then some off
      else if off ≥ toInt16 buf.length then some (-1)
      else indexNullGo buf fuel (toInt16 (off + 1))
    else none

/-- `indexNull(off, buf)`: position of the next NUL byte, `-1` via the
(normally unreachable) in-loop bound test, or `none` for the index panic. -/
def indexNull (off : Int) (buf : List Nat) : Option Int :=
  indexNullGo buf (buf.length + 2) off

/-- `decoder.sliceNext(off)`: slice the next `off` bytes and advance `pos`
(`int16` addition); a Go slice-bound violation is `DErr.panicked`. -/
def sliceNextD (off : Int) (d : Dec) : Except DErr (List Nat × Dec) :=
  let ppos := d.pos
  let npos := toInt16 (d.pos + off)
  if 0 ≤ ppos ∧ ppos ≤ npos ∧ npos ≤ (d.buf.length : Int) then
    Except.ok ((d.buf.drop ppos.toNat).take (npos - ppos).toNat, { d with pos := npos })
  else Except.error DErr.panicked

/-- `decoder.evenBoundary`: skip one byte when `pos` is odd. -/
def evenBoundaryD (d : Dec) : Dec :=
  if Int.tmod d.pos 2 = 1 then { d with pos := toInt16 (d.pos + 1) } else d

/-- `decoder.unmarshalHeader`: read 5 shorts into `h`, rejecting negative
values (checked short by short, as the Go loop does). -/
def unmarshalHeaderD (d : Dec) : Except DErr Dec :=
  match sliceNextD hlBytes d with
  | Except.error e => Except.error e
  | Except.ok (hbuf, d) =>
    match littleEndianAt 0 hbuf, littleEndianAt 2 hbuf, littleEndianAt 4 hbuf,
        littleEndianAt 6 hbuf, littleEndianAt 8 hbuf with
    | some n0, some n1, some n2, some n3, some n4 =>
      if n0 < 0 then Except.error DErr.badHeader
      else if n1 < 0 then Except.error DErr.badHeader
      else if n2 < 0 then Except.error DErr.badHeader
      else if n3 < 0 then Except.error DErr.badHeader
      else if n4 < 0 then Except.error DErr.badHeader
      else Except.ok { d with h := ⟨n0, n1, n2, n3, n4⟩ }
    | _, _, _, _, _ => Except.error DErr.panicked

/-- `strings.Split(string(l), "|")`: split on the pipe byte. -/
def splitBar : List Nat → List (List Nat)
  | [] => [[]]
  | c :: t =>
    match splitBar t with
    | [] => [[c]]
    | h :: r => if c = 124 then [] :: h :: r else (c :: h) :: r

/-- `decoder.unmarshalNames`. -/
def unmarshalNamesD (d : Dec) : Except DErr Dec :=
  match sliceNextD d.h.f0 d with
  | Except.error e => Except.error e
  | Except.ok (nm, d) => Except.ok { d with ti := { d.ti with names := splitBar nm } }

/-- `decoder.unmarshalBools`: a byte equal to 1 sets the capability. -/
def unmarshalBoolsD (d : Dec) : Except DErr Dec :=
  match sliceNextD d.h.f1 d with
  | Except.error e => Except.error e
  | Except.ok (bb, d) =>
    let bools := (bb.enum).foldl (fun bs p => if p.2 = 1 then bs.set p.1 true else bs) d.ti.bools
    Except.ok { d with ti := { d.ti with bools := bools } }

/-- The loop body of `unmarshalNumbers`: shorts greater than `-1` are
stored, the rest keep the zero default. -/
def unmNumsGo (nbuf : List Nat) : Nat → Nat → List Int → Except DErr (List Int)
  | 0, _, ns => Except.ok ns
  | k + 1, i, ns =>
    match littleEndianAt (toInt16 (2 * (i : Int))) nbuf with
    | none => Except.error DErr.panicked
    | some n => unmNumsGo nbuf k (i + 1) (if n > -1 then ns.set i n else ns)

/-- `decoder.unmarshalNumbers`. -/
def unmarshalNumbersD (d : Dec) : Except DErr Dec :=
  match sliceNextD (toInt16 (d.h.f2 * 2)) d with
  | Except.error e => Except.error e
  | Except.ok (nbuf, d) =>
    match unmNumsGo nbuf d.h.f2.toNat 0 d.ti.numbers with
    | Except.error e => Except.error e
    | Except.ok ns => Except.ok { d with ti := { d.ti with numbers := ns } }

/-- Go `table[off:end]` for the in-range offsets produced by `indexNull`. -/
def subSlice (lo hi : Int) (l : List Nat) : List Nat :=
  (l.drop lo.toNat).take (hi - lo).toNat

/-- The loop body of `unmarshalStrings`: each non-negative offset must reach
a NUL inside the table (`indexNull`); `-1` offsets are skipped. -/
def unmStrsGo (sbuf table : List Nat) : Nat → Nat → List (List Nat) →
    Except DErr (List (List Nat))
  | 0, _, ss => Except.ok ss
  | k + 1, i, ss =>
    match littleEndianAt (toInt16 (2 * (i : Int))) sbuf with
    | none => Except.error DErr.panicked
    | some off =>
      if off > -1 then
        match indexNull off table with
        | none => Except.error DErr.panicked
        | some e =>
          if e = -1 then Except.error DErr.badString
          else unmStrsGo sbuf table k (i + 1) (ss.set i (subSlice off e table))
      else unmStrsGo sbuf table k (i + 1) ss

/-- `decoder.unmarshalStrings`. -/
def unmarshalStringsD (d : Dec) : Except DErr Dec :=
  match sliceNextD (toInt16 (d.h.f3 * 2)) d with
  | Except.error e => Except.error e
  | Except.ok (sbuf, d) =>
    match sliceNextD d.h.f4 d with
    | Except.error e => Except.error e
    | Except.ok (table, d) =>
      match unmStrsGo sbuf table d.h.f3.toNat 0 d.ti.strings with
      | Except.error e => Except.error e
      | Except.ok ss => Except.ok { d with ti := { d.ti with strings := ss } }

/-- The decoder state at the start of `unmarshal`, after skipping the magic
(`d.pos = 2`); all other fields are Go zero values. -/
def dInit (buf : List Nat) : Dec :=
  { pos := 2, extNameOffPos := 0, h := ⟨0, 0, 0, 0, 0⟩, buf := buf,
    extStringTable := [], extNameTable := [], ti := Ti.init }

/-- The magic, size, header and standard-section phase of
`decoder.unmarshal` (its body up to and including `unmarshalStrings`). -/
def stdDecode (buf : List Nat) : Except DErr Dec :=
  let s := toInt16 buf.length
  if s < hlBytes + 2 then Except.error DErr.smallFile
  else
    match littleEndianAt 0 buf with
    | none => Except.error DErr.panicked
    | some m =>
      if m ≠ magicN then Except.error DErr.badHeader
      else
        match unmarshalHeaderD (dInit buf) with
        | Except.error e => Except.error e
        | Except.ok d =>
          if toInt16 (s - d.pos) < lenCaps d.h then Except.error DErr.smallFile
          else if excessCaps d.h then Except.error DErr.badHeader
          else
            match unmarshalNamesD d with
            | Except.error e => Except.error e
            | Except.ok d =>
              match unmarshalBoolsD d with
              | Except.error e => Except.error e
              | Except.ok d =>
                match unmarshalNumbersD (evenBoundaryD d) with
                | Except.error e => Except.error e
                | Except.ok d => unmarshalStringsD d

/-- The backwards scan of `setExtNameTable` that finds the last non-negative
value offset, decrementing `lenExtStrings` (`h.f2`) along the way.  The fuel
bounds the loop; each pass moves `vpos` down by 2, so `buf.length + 2`
passes always suffice before `vpos < pos` fires. -/
def lastOffGo (d : Dec) : Nat → Int → Header → Except DErr (Int × Int × Header)
  | 0, _, _ => Except.error DErr.panicked
  | fuel + 1, vpos, h =>
    let vpos1 := toInt16 (vpos - 2)
    if vpos1 < d.pos then Except.error DErr.badString
    else
      let h1 : Header := { h with f2 := toInt16 (h.f2 - 1) }
      match littleEndianAt vpos1 d.buf with
      | none => Except.error DErr.panicked
      | some voff =>
        if voff > -1 then Except.ok (vpos1, voff, h1)
        else lastOffGo d fuel vpos1 h1

/-- `decoder.setExtNameTable`: split the combined table into the value
string table and the name table, and store the final extended string. -/
def setExtNameTable (d : Dec) : Except DErr Dec :=
  let extNameOffPos := toInt16 (d.pos + extNameOffsOff d.h)
  let lenNO := lenExtNameOffs d.h
  match lastOffGo d (d.buf.length + 2) extNameOffPos d.h with
  | Except.error e => Except.error e
  | Except.ok (vpos, voff, h) =>
    let start := toInt16 (extNameOffPos + lenNO)
    if 0 ≤ start ∧ start ≤ (d.buf.length : Int) then
      let est := d.buf.drop start.toNat
      match indexNull voff est with
      | none => Except.error DErr.panicked
      | some vend =>
        if vend = -1 then Except.error DErr.badString
        else
          let ent := est.drop (vend + 1).toNat
          match littleEndianAt (toInt16 (vpos + lenNO)) d.buf with
          | none => Except.error DErr.panicked
          | some koff =>
            match indexNull koff ent with
            | none => Except.error DErr.panicked
            | some kend =>
              if kend = -1 then Except.error DErr.badString
              else
                let m := upsert (subSlice koff kend ent) (subSlice voff vend est) []
                Except.ok { d with
                  h := h,
                  extNameOffPos := extNameOffPos,
                  extStringTable := est.take voff.toNat,
                  extNameTable := ent.take koff.toNat,
                  ti := { d.ti with extStrings := m } }
    else Except.error DErr.panicked

/-- `decoder.nextExtName`: read the next name offset and find the end of the
name; the offset read can panic, and so can `indexNull` itself. -/
def nextExtName (d : Dec) : Except DErr (Int × Int × Dec) :=
  match littleEndianAt d.extNameOffPos d.buf with
  | none => Except.error DErr.panicked
  | some off =>
    let d := { d with extNameOffPos := toInt16 (d.extNameOffPos + 2) }
    match indexNull off d.extNameTable with
    | none => Except.error DErr.panicked
    | some e => Except.ok (off, e, d)

/-- The loop body of `unmarshalExtBools`. -/
def extBoolsGo : List Nat → Dec → Except DErr Dec
  | [], d => Except.ok d
  | b :: bs, d =>
    match nextExtName d with
    | Except.error e => Except.error e
    | Except.ok (off, e, d) =>
      if e = -1 then Except.error DErr.badString
      else
        let d := if b = 1 then
          { d with ti := { d.ti with
              extBools := upsert (subSlice off e d.extNameTable) true d.ti.extBools } }
          else d
        extBoolsGo bs d

/-- `decoder.unmarshalExtBools`. -/
def unmarshalExtBools (d : Dec) : Except DErr Dec :=
  let d := { d with ti := { d.ti with extBools := [] } }
  match sliceNextD d.h.f0 d with
  | Except.error e => Except.error e
  | Except.ok (bb, d) => extBoolsGo bb d

/-- The loop body of `unmarshalExtNumbers`. -/
def extNumsGo (nbuf : List Nat) : Nat → Nat → Dec → Except DErr Dec
  | 0, _, d => Except.ok d
  | k + 1, i, d =>
    match nextExtName d with
    | Except.error e => Except.error e
    | Except.ok (off, e, d) =>
      if e = -1 then Except.error DErr.badString
      else
        match littleEndianAt (toInt16 (2 * (i : Int))) nbuf with
        | none => Except.error DErr.panicked
        | some n =>
          let d := if n > -1 then
            { d with ti := { d.ti with
                extNumbers := upsert (subSlice off e d.extNameTable) n d.ti.extNumbers } }
            else d
          extNumsGo nbuf k (i + 1) d

/-- `decoder.unmarshalExtNumbers`. -/
def unmarshalExtNumbers (d : Dec) : Except DErr Dec :=
  let d := { d with ti := { d.ti with extNumbers := [] } }
  match sliceNextD (toInt16 (d.h.f1 * 2)) d with
  | Except.error e => Except.error e
  | Except.ok (nbuf, d) => extNumsGo nbuf d.h.f1.toNat 0 d

/-- The loop of `unmarshalExtStrings`: `pos` walks the remaining value
offsets two bytes at a time until it reaches `lpos` (`int16` comparison and
increment).  The fuel dominates the wrap-around worst case. -/
def extStrsGo (lpos : Int) : Nat → Dec → Except DErr Dec
  | 0, _ => Except.error DErr.panicked
  | fuel + 1, d =>
    if d.pos < lpos then
      match nextExtName d with
      | Except.error e => Except.error e
      | Except.ok (koff, kend, d) =>
        if kend = -1 then Except.error DErr.badString
        else
          match littleEndianAt d.pos d.buf with
          | none => Except.error DErr.panicked
          | some voff =>
            if voff > -1 then
              match indexNull voff d.extStringTable with
              | none => Except.error DErr.panicked
              | some vend =>
                if vend = -1 then Except.error DErr.badString
                else
                  let m := upsert (subSlice koff kend d.extNameTable)
                    (subSlice voff vend d.extStringTable) d.ti.extStrings
                  let d := { d with
                    pos := toInt16 (d.pos + 2),
                    ti := { d.ti with extStrings := m } }
                  extStrsGo lpos fuel d
            else extStrsGo lpos fuel { d with pos := toInt16 (d.pos + 2) }
    else Except.ok d

/-- `decoder.unmarshalExtStrings`. -/
def unmarshalExtStrings (d : Dec) : Except DErr Dec :=
  extStrsGo (toInt16 (d.pos + d.h.f2 * 2)) 40000 d

/-- The extended-block phase of `decoder.unmarshal` (everything after the
`s <= d.pos` early return). -/
def extDecode (buf : List Nat) (d : Dec) : Except DErr Ti :=
  let s := toInt16 buf.length
  if s ≤ d.pos then Except.ok d.ti
  else
    let d := evenBoundaryD d
    let s2 := toInt16 (s - d.pos)
    if s2 < hlBytes then Except.error DErr.smallFile
    else
      match unmarshalHeaderD d with
      | Except.error e => Except.error e
      | Except.ok d =>
        if badLenExtOff d.h then Except.error DErr.badHeader
        else if toInt16 (s2 - hlBytes) < lenExtCaps d.h then Except.error DErr.smallFile
        else
          match setExtNameTable d with
          | Except.error e => Except.error e
          | Except.ok d =>
            match unmarshalExtBools d with
            | Except.error e => Except.error e
            | Except.ok d =>
              match unmarshalExtNumbers (evenBoundaryD d) with
              | Except.error e => Except.error e
              | Except.ok d =>
                match unmarshalExtStrings d with
                | Except.error e => Except.error e
                | Except.ok d => Except.ok d.ti

/-- `decoder.unmarshal`: decode one compiled terminfo entry. -/
def unmarshal (buf : List Nat) : Except DErr Ti :=
  match stdDecode buf with
  | Except.error e => Except.error e
  | Except.ok d => extDecode buf d

/-! ## Part 3: auxiliary notions used by the theorems -/

/-- A template containing no `%` byte (pure literal text). -/
def noPctByte (s : List Nat) : Prop := ∀ c ∈ s, c ≠ 37

/-- A template containing no `%P` and no `%g` directive: no position holds a
`%` byte followed by `P` or `g`. -/
def noDSVarDirective (s : List Nat) : Prop :=
  ∀ i, i < s.length →
    ¬(s[i]?.getD 0 = 37 ∧ (s[i + 1]?.getD 0 = 80 ∨ s[i + 1]?.getD 0 = 103))

/-- Rank of a scanner state for the termination measure: `scanCode` may
dispatch to `scanFormat`, `scanThen` or `skipText` without consuming a byte,
so it sits one level above every other state. -/
def rankSt : St → Nat
  | St.scanCode => 1
  | _ => 0

/-- Termination measure of a scanner configuration: twice the bytes that can
still be consumed, plus the state rank. -/
def pzMeasure (st : St) (pz : Pz) : Nat :=
  2 * ((pz.s.length + 1) - pz.pos) + rankSt st

/-- The conditional template of spec scenario S6. -/
def c1Tmpl : List Nat := strBytes "%?%p1%t%p1%dA%e%p1%dB%;"

/-- Store then load using a lowercase (dynamic) variable letter. -/
def c2TmplLow : List Nat := strBytes "%p1%Pa%ga%d"

/-- Store then load using an uppercase (static) variable letter. -/
def c2TmplUp : List Nat := strBytes "%p1%PA%gA%d"

/-- A 12-byte buffer: valid magic followed by an all-zero header. -/
def c3Buf : List Nat := [26, 1, 0, 0, 0, 0, 0, 0, 0, 0, 0, 0]

/-- Valid magic, header declaring one string capability with a 1-byte string
table, the single string offset `0`, and a table consisting of one non-NUL
byte, so the referenced string is not NUL-terminated. -/
def c4Buf : List Nat := [26, 1, 0, 0, 0, 0, 0, 0, 1, 0, 1, 0, 0, 0, 65]

/-- Valid magic and a header declaring `lenBools = 45` (one more than the
known boolean-capability count) but no further bytes. -/
def c5Buf : List Nat := [26, 1, 0, 0, 45, 0, 0, 0, 0, 0, 0, 0]

/-- `c5Buf` padded with the 46 bytes its header declares. -/
def c5WitBuf : List Nat := c5Buf ++ List.replicate 46 0

/-- The decoder state after the header phase of `c5WitBuf`. -/
def c5WitDec : Dec :=
  { pos := 12, extNameOffPos := 0, h := ⟨0, 45, 0, 0, 0⟩, buf := c5WitBuf,
    extStringTable := [], extNameTable := [], ti := Ti.init }

/-- An empty standard block followed by an extended header declaring one
extended boolean but zero offsets (an inconsistent offset count). -/
def c6Buf : List Nat := c3Buf ++ [1, 0, 0, 0, 0, 0, 0, 0, 0, 0]

/-- The decoder state after the standard phase of `c6Buf`. -/
def c6Dec : Dec :=
  { pos := 12, extNameOffPos := 0, h := ⟨0, 0, 0, 0, 0⟩, buf := c6Buf,
    extStringTable := [], extNameTable := [],
    ti := { Ti.init with names := [[]] } }

/-- The decoder state after additionally reading the extended header of
`c6Buf`. -/
def c6Dec2 : Dec :=
  { pos := 22, extNameOffPos := 0, h := ⟨1, 0, 0, 0, 0⟩, buf := c6Buf,
    extStringTable := [], extNameTable := [],
    ti := { Ti.init with names := [[]] } }

instance {ε α : Type} [DecidableEq ε] [DecidableEq α] : DecidableEq (Except ε α) := fun a b =>
  match a, b with
  | Except.ok x, Except.ok y => decidable_of_iff (x = y) (by simp)
  | Except.error x, Except.error y => decidable_of_iff (x = y) (by simp)
  | Except.ok _, Except.error _ => isFalse (by simp)
  | Except.error _, Except.ok _ => isFalse (by simp)

instance (s : List Nat) : Decidable (noPctByte s) := by
  unfold noPctByte
  infer_instance

instance (s : List Nat) : Decidable (noDSVarDirective s) := by
  unfold noDSVarDirective
  infer_instance

/-! ## Theorems -/

theorem toInt16_self {n : Int} (h0 : 0 ≤ n) (h1 : n < 32768) : toInt16 n = n := by
  unfold toInt16
  omega

/-- C1 (counterexample): expanding `"%?%p1%t%p1%dA%e%p1%dB%;"` with the
parameter vector `[1]` yields `"1B"`, not `"1A"` as the claim states: the
popped condition is the `int` value `1`, which `popBool` maps to `false`, so
the else-branch is selected. -/
theorem C1_counterexample :
    Parm nilBank c1Tmpl [V.i 1] ≠ strBytes "1A" ∧
    Parm nilBank c1Tmpl [V.i 1] = strBytes "1B" := by
  constructor <;> decide

/-- C1 (amended): at `%t` the evaluator pops the condition value with
`popBool` before choosing a branch; it selects the then-branch exactly when
the popped value is the boolean `true` (any non-boolean value, including a
nonzero integer, counts as `false`).  In particular the template
`"%?%p1%t%p1%dA%e%p1%dB%;"` yields `"0B"` on `[0]` and `"1B"` on `[1]`. -/
theorem C1_conditional_select :
    (∀ (pz : Pz) (sv : Bank),
      (stepF St.scanThen pz sv).2.2 =
        some (if (popB pz.stk).1 then St.scanText else St.skipText) ∧
      (stepF St.scanThen pz sv).1.stk = (popB pz.stk).2 ∧
      (stepF St.scanThen pz sv).1.pos = pz.pos + 1) ∧
    Parm nilBank c1Tmpl [V.i 0] = strBytes "0B" ∧
    Parm nilBank c1Tmpl [V.i 1] = strBytes "1B" := by
  refine ⟨fun pz sv => ?_, by decide, by decide⟩
  simp only [stepF, scanThenF]
  rcases popB pz.stk with ⟨v, t⟩
  cases v <;> simp

/-- C2 (evaluation at the failing input): `"%p1%Pa%ga%d"` with parameter 5
and an all-nil static bank prints `"0"`: `%Pa` stores 5 into the dynamic
bank but `%ga` reads `svars`, not `dvars`, so the stored value is lost.  The
uppercase counterpart `"%p1%PA%gA%d"` prints `"5"` as the claim expects. -/
theorem C2_dynamic_bank_bug :
    Parm nilBank c2TmplUp [V.i 5] = strBytes "5" ∧
    Parm nilBank c2TmplLow [V.i 5] = strBytes "0" ∧
    Parm nilBank c2TmplLow [V.i 5] ≠ strBytes "5" := by
  refine ⟨by decide, by decide, by decide⟩

/-- C3 (counterexample): a 12-byte buffer (valid magic, all-zero header) is
shorter than 14 bytes yet decodes successfully, so decoding does not return
SmallFile for every buffer of length below 14. -/
theorem C3_counterexample :
    c3Buf.length < 14 ∧ unmarshal c3Buf ≠ Except.error DErr.smallFile := by
  constructor <;> decide

/-- C3 (amended): for every input buffer whose length is less than 12 bytes
(2 magic bytes plus the 5-short header), decoding returns SmallFile. -/
theorem C3_small_file (buf : List Nat) (h : buf.length < 12) :
    unmarshal buf = Except.error DErr.smallFile := by
  unfold unmarshal stdDecode
  have h16 : toInt16 (buf.length : Int) = buf.length :=
    toInt16_self (by positivity) (by exact_mod_cast by omega)
  rw [h16]
  have hc : ((buf.length : Int) < hlBytes + 2) := by unfold hlBytes; exact_mod_cast h
  simp [hc]

theorem C3_witness :
    ([] : List Nat).length < 12 ∧ unmarshal [] = Except.error DErr.smallFile :=
  ⟨by decide, C3_small_file [] (by decide)⟩

/-- C4 (evaluation at the failing input): `c4Buf` references string offset 0
in a 1-byte table holding no NUL; decoding faults (models the Go index panic
in `indexNull`, which reads `buf[off]` before its bound test) instead of
returning the BadString error. -/
theorem C4_panic_eval :
    unmarshal c4Buf = Except.error DErr.panicked ∧
    unmarshal c4Buf ≠ Except.error DErr.badString := by
  constructor <;> decide

/-- C7 (counterexample): the 2-byte buffer `[0, 0]` has first bytes other
than `1A 01`, yet decoding yields SmallFile, not BadHeader: the size check
precedes the magic check. -/
theorem C7_counterexample :
    ¬([0, 0].getD 0 0 = 26 ∧ [0, 0].getD 1 0 = 1) ∧
    unmarshal [0, 0] = Except.error DErr.smallFile ∧
    unmarshal [0, 0] ≠ Except.error DErr.badHeader := by
  refine ⟨by decide, by decide, by decide⟩

/-- C7 (amended): for every byte buffer of length at least 12 (and at most
32767, the range in which the decoder's `int16` view of the length is
exact) whose first two bytes differ from `1A 01`, decoding yields
BadHeader. -/
theorem C7_bad_magic (buf : List Nat) (hb : ∀ c ∈ buf, c < 256)
    (h1 : 12 ≤ buf.length) (h2 : buf.length ≤ 32767)
    (h3 : ¬(buf.getD 0 0 = 26 ∧ buf.getD 1 0 = 1)) :
    unmarshal buf = Except.error DErr.badHeader := by
  have h16 : toInt16 (buf.length : Int) = buf.length :=
    toInt16_self (by positivity) (by exact_mod_cast (by omega : buf.length < 32768))
  have hb0 : buf.getD 0 0 < 256 := by
    rw [List.getD_eq_getElem _ _ (by omega)]
    exact hb _ (List.getElem_mem _)
  have hb1 : buf.getD 1 0 < 256 := by
    rw [List.getD_eq_getElem _ _ (by omega)]
    exact hb _ (List.getElem_mem _)
  unfold unmarshal stdDecode
  rw [h16]
  have hc : ¬ ((buf.length : Int) < hlBytes + 2) := by
    unfold hlBytes
    push_cast
    omega
  rw [if_neg hc]
  have hle : littleEndianAt 0 buf = some (toInt16 (256 * buf.getD 1 0 + buf.getD 0 0)) := by
    unfold littleEndianAt
    rw [if_pos (by constructor <;> omega)]
    rfl
  rw [hle]
  have hm : toInt16 (256 * (buf.getD 1 0 : Int) + (buf.getD 0 0 : Int)) ≠ magicN := by
    intro he
    apply h3
    unfold toInt16 magicN at he
    constructor <;> omega
  simp only []
  rw [if_pos hm]

theorem C7_witness : unmarshal (List.replicate 12 0) = Except.error DErr.badHeader :=
  C7_bad_magic _ (by decide) (by decide) (by decide) (by decide)

/-- C5 (counterexample): `c5Buf` declares `lenBools = 45`, one more than the
known boolean-capability count, but decoding yields SmallFile (the section
size check fires first), not BadHeader. -/
theorem C5_counterexample :
    littleEndianAt 4 c5Buf = some (boolCount + 1) ∧
    unmarshal c5Buf = Except.error DErr.smallFile ∧
    unmarshal c5Buf ≠ Except.error DErr.badHeader := by
  refine ⟨by decide, by decide, by decide⟩

/-- C5 (amended): a header count above the known standard capability count
yields BadHeader provided the earlier checks pass: the buffer is at least 12
bytes in `int16` view, the magic matches, the header shorts are
non-negative, and the buffer is large enough for the declared sections. -/
theorem C5_excess_caps (buf : List Nat) (d : Dec)
    (h1 : ¬ toInt16 buf.length < hlBytes + 2)
    (h2 : littleEndianAt 0 buf = some magicN)
    (h3 : unmarshalHeaderD (dInit buf) = Except.ok d)
    (h4 : ¬ toInt16 (toInt16 buf.length - d.pos) < lenCaps d.h)
    (h5 : excessCaps d.h = true) :
    unmarshal buf = Except.error DErr.badHeader := by
  unfold unmarshal stdDecode
  rw [if_neg h1, h2]
  simp only []
  rw [if_neg (by simp : ¬ magicN ≠ magicN), h3]
  simp only [if_neg h4, if_pos h5]

theorem C5_witness : unmarshal c5WitBuf = Except.error DErr.badHeader :=
  C5_excess_caps c5WitBuf c5WitDec (by decide) (by decide) (by decide)
    (by decide) (by decide)

/-- C6: when the standard phase succeeds, bytes remain, the extended header
region is present (at least 10 bytes in the decoder's `int16` accounting)
and parses with non-negative shorts, an extended offset count different
from `lenExtBools + lenExtNumbers + 2 * lenExtStrings` makes decoding fail
with BadHeader. -/
theorem C6_bad_ext_off (buf : List Nat) (d d2 : Dec)
    (h1 : stdDecode buf = Except.ok d)
    (h2 : ¬ toInt16 buf.length ≤ d.pos)
    (h3 : ¬ toInt16 (toInt16 buf.length - (evenBoundaryD d).pos) < hlBytes)
    (h4 : unmarshalHeaderD (evenBoundaryD d) = Except.ok d2)
    (h5 : badLenExtOff d2.h = true) :
    unmarshal buf = Except.error DErr.badHeader := by
  unfold unmarshal
  rw [h1]
  show extDecode buf d = Except.error DErr.badHeader
  simp only [extDecode]
  rw [if_neg h2, if_neg h3, h4]
  simp only [if_pos h5]

theorem C6_witness : unmarshal c6Buf = Except.error DErr.badHeader :=
  C6_bad_ext_off c6Buf c6Dec c6Dec2 (by decide) (by decide) (by decide)
    (by decide) (by decide)

/-! Generic facts about `runLoop`, `takeWhile` spans and the step measure,
used by the termination and noninterference theorems. -/

theorem runLoop_succ (n : Nat) (st : St) (pz : Pz) (sv : Bank) :
    runLoop (n + 1) st pz sv =
      match stepF st pz sv with
      | (pz1, sv1, none) => (pz1, sv1, none)
      | (pz1, sv1, some st1) => runLoop n st1 pz1 sv1 := rfl

theorem length_takeWhile_le (p : Nat → Bool) (l : List Nat) :
    (l.takeWhile p).length ≤ l.length := by
  induction l with
  | nil => simp
  | cons c t ih =>
    simp only [List.takeWhile_cons]
    cases p c
    · simp
    · simp
      omega

theorem takeWhile_boundary (p : Nat → Bool) (l : List Nat)
    (h : (l.takeWhile p).length < l.length) :
    p (l[(l.takeWhile p).length]?.getD 0) = false := by
  induction l with
  | nil => simp at h
  | cons c t ih =>
    rcases hp : p c with _ | _
    · simp [List.takeWhile_cons, hp]
    · simp only [List.takeWhile_cons, hp, if_true, eq_self_iff_true, List.length_cons,
        List.getElem?_cons_succ] at h ⊢
      exact ih (by omega)

theorem getD_of_drop (l : List Nat) (n m : Nat) (d : Nat) :
    (l.drop n)[m]?.getD d = l[n + m]?.getD d := by
  induction l generalizing n with
  | nil => simp
  | cons c t ih =>
    cases n with
    | zero => simp
    | succ k =>
      have hnm : k + 1 + m = (k + m) + 1 := by omega
      simp only [List.drop_succ_cons, hnm, List.getElem?_cons_succ]
      exact ih k

theorem get?_some_lt {l : List Nat} {n : Nat} {a : Nat} (h : l.get? n = some a) :
    n < l.length := by
  by_contra hn
  rw [List.get?_eq_none.mpr (by omega)] at h
  cases h

theorem stepF_s_eq (st : St) (pz : Pz) (sv : Bank) : ((stepF st pz sv).1).s = pz.s := by
  cases st
  case scanText =>
    show ((scanTextF pz).1).s = pz.s
    unfold scanTextF
    try dsimp only
    repeat' split
    all_goals rfl
  case scanCode =>
    show ((scanCodeF pz).1).s = pz.s
    unfold scanCodeF
    try dsimp only
    repeat' split
    all_goals rfl
  case scanFormat =>
    show ((scanFormatF pz).1).s = pz.s
    unfold scanFormatF
    try dsimp only
    repeat' split
    all_goals rfl
  case pushParam =>
    show ((pushParamF pz).1).s = pz.s
    unfold pushParamF
    try dsimp only
    repeat' split
    all_goals rfl
  case setDSVar =>
    show ((setDSVarF pz sv).1).s = pz.s
    unfold setDSVarF
    try dsimp only
    repeat' split
    all_goals rfl
  case getDSVar =>
    show ((getDSVarF pz sv).1).s = pz.s
    unfold getDSVarF
    try dsimp only
    repeat' split
    all_goals rfl
  case pushInt =>
    show ((pushIntF pz).1).s = pz.s
    unfold pushIntF
    try dsimp only
    repeat' split
    all_goals rfl
  case scanThen =>
    show ((scanThenF pz).1).s = pz.s
    unfold scanThenF
    try dsimp only
    repeat' split
    all_goals rfl
  case skipText =>
    show ((skipTextF pz).1).s = pz.s
    unfold skipTextF
    try dsimp only
    repeat' split
    all_goals rfl
  case skipThen =>
    show ((skipThenF pz).1).s = pz.s
    unfold skipThenF
    try dsimp only
    repeat' split
    all_goals rfl
  case skipElse =>
    show ((skipElseF pz).1).s = pz.s
    unfold skipElseF
    try dsimp only
    repeat' split
    all_goals rfl

theorem stepF_pos_mono (st : St) (pz : Pz) (sv : Bank) :
    pz.pos ≤ ((stepF st pz sv).1).pos := by
  cases st
  case scanText =>
    show pz.pos ≤ ((scanTextF pz).1).pos
    unfold scanTextF
    try dsimp only
    repeat' split
    all_goals (dsimp only; omega)
  case scanCode =>
    show pz.pos ≤ ((scanCodeF pz).1).pos
    unfold scanCodeF
    repeat' split
    all_goals (dsimp only [emit, pushV, goSub, arith2, cmp2, logic2]; omega)
  case scanFormat =>
    show pz.pos ≤ ((scanFormatF pz).1).pos
    unfold scanFormatF
    try dsimp only
    repeat' split
    all_goals (dsimp only; omega)
  case pushParam =>
    show pz.pos ≤ ((pushParamF pz).1).pos
    unfold pushParamF
    try dsimp only
    repeat' split
    all_goals (dsimp only; omega)
  case setDSVar =>
    show pz.pos ≤ ((setDSVarF pz sv).1).pos
    unfold setDSVarF
    try dsimp only
    repeat' split
    all_goals (dsimp only; omega)
  case getDSVar =>
    show pz.pos ≤ ((getDSVarF pz sv).1).pos
    unfold getDSVarF
    try dsimp only
    repeat' split
    all_goals (dsimp only; omega)
  case pushInt =>
    show pz.pos ≤ ((pushIntF pz).1).pos
    unfold pushIntF
    try dsimp only
    repeat' split
    all_goals (dsimp only; omega)
  case scanThen =>
    show pz.pos ≤ ((scanThenF pz).1).pos
    unfold scanThenF
    try dsimp only
    repeat' split
    all_goals (dsimp only; omega)
  case skipText =>
    show pz.pos ≤ ((skipTextF pz).1).pos
    unfold skipTextF
    try dsimp only
    repeat' split
    all_goals (dsimp only; omega)
  case skipThen =>
    show pz.pos ≤ ((skipThenF pz).1).pos
    unfold skipThenF
    try dsimp only
    repeat' split
    all_goals (dsimp only; omega)
  case skipElse =>
    show pz.pos ≤ ((skipElseF pz).1).pos
    unfold skipElseF
    try dsimp only
    repeat' split
    all_goals (dsimp only; omega)

theorem split_step {r : Pz × Option St} {sv : Bank} {pz1 : Pz} {sv1 : Bank} {ost : Option St}
    (h : ((r.1, sv, r.2) : Pz × Bank × Option St) = (pz1, sv1, ost)) : r = (pz1, ost) := by
  obtain ⟨a, b⟩ := r
  simp only [Prod.mk.injEq] at h ⊢
  exact ⟨h.1, h.2.2⟩

theorem scanTextF_halts_past_end (pz : Pz) (hp : pz.s.length ≤ pz.pos) :
    (scanTextF pz).2 = none := by
  unfold scanTextF
  dsimp only
  rw [List.drop_eq_nil_of_le hp]
  simp

theorem skipTextF_halts_past_end (pz : Pz) (hp : pz.s.length ≤ pz.pos) :
    (skipTextF pz).2 = none := by
  unfold skipTextF
  dsimp only
  rw [List.drop_eq_nil_of_le hp]
  simp

/-- Every continuing step either decreases the measure or reaches a
configuration whose next step halts (the latter only for `scanThen` beyond
the end of the template, whose states never arise in a real run). -/
theorem stepF_progress (st : St) (pz : Pz) (sv : Bank) (pz1 : Pz) (sv1 : Bank) (st1 : St)
    (h : stepF st pz sv = (pz1, sv1, some st1)) :
    pzMeasure st1 pz1 < pzMeasure st pz ∨ ∀ sv2, (stepF st1 pz1 sv2).2.2 = none := by
  cases st
  case scanText =>
    replace h : scanTextF pz = (pz1, some st1) := split_step h
    have hle := length_takeWhile_le (fun c => decide (c ≠ 37)) (pz.s.drop pz.pos)
    have hdr : (pz.s.drop pz.pos).length = pz.s.length - pz.pos := by simp
    unfold scanTextF at h
    dsimp only at h
    split at h
    · simp at h
    · simp only [Prod.mk.injEq, Option.some.injEq] at h
      obtain ⟨h1, h3⟩ := h
      subst h1
      subst h3
      left
      dsimp only [pzMeasure, rankSt]
      omega
  case scanCode =>
    rcases hg : pz.s.get? pz.pos with _ | c
    · replace h : scanCodeF pz = (pz1, some st1) := split_step h
      unfold scanCodeF at h
      rw [hg] at h
      simp at h
    · have hpos : pz.pos < pz.s.length := get?_some_lt hg
      replace h : scanCodeF pz = (pz1, some st1) := split_step h
      unfold scanCodeF at h
      rw [hg] at h
      dsimp only [emit, pushV, goSub, arith2, cmp2, logic2] at h
      repeat' split at h
      all_goals
        first
        | (simp only [Prod.mk.injEq, Option.some.injEq] at h
           obtain ⟨h1, h3⟩ := h
           subst h1
           subst h3
           left
           dsimp only [pzMeasure, rankSt]
           omega)
        | simp at h
  case scanFormat =>
    replace h : scanFormatF pz = (pz1, some st1) := split_step h
    have hle := length_takeWhile_le (fun c => !isVerb c) (pz.s.drop (pz.pos + 1))
    have hdr : (pz.s.drop (pz.pos + 1)).length = pz.s.length - (pz.pos + 1) := by simp
    unfold scanFormatF at h
    dsimp only at h
    repeat' split at h
    all_goals
      first
      | (simp only [Prod.mk.injEq, Option.some.injEq] at h
         obtain ⟨h1, h3⟩ := h
         subst h1
         subst h3
         left
         dsimp only [pzMeasure, rankSt]
         omega)
      | simp at h
  case pushParam =>
    replace h : pushParamF pz = (pz1, some st1) := split_step h
    rcases hg : pz.s.get? pz.pos with _ | c
    · unfold pushParamF at h
      rw [hg] at h
      simp at h
    · have hpos : pz.pos < pz.s.length := get?_some_lt hg
      unfold pushParamF at h
      rw [hg] at h
      dsimp only at h
      by_cases hlt : (c + 256 - 49) % 256 < 9
      · rw [dif_pos hlt] at h
        simp only [Prod.mk.injEq, Option.some.injEq] at h
        obtain ⟨h1, h3⟩ := h
        subst h1
        subst h3
        left
        dsimp only [pzMeasure, rankSt]
        omega
      · rw [dif_neg hlt] at h
        simp only [Prod.mk.injEq, Option.some.injEq] at h
        obtain ⟨h1, h3⟩ := h
        subst h1
        subst h3
        left
        dsimp only [pzMeasure, rankSt]
        omega
  case setDSVar =>
    replace h : setDSVarF pz sv = (pz1, sv1, some st1) := h
    rcases hg : pz.s.get? pz.pos with _ | c
    · unfold setDSVarF at h
      rw [hg] at h
      simp at h
    · have hpos : pz.pos < pz.s.length := get?_some_lt hg
      unfold setDSVarF at h
      rw [hg] at h
      dsimp only at h
      have hcl : ∀ x : Pz × Bank × Option St, x = (pz1, sv1, some st1) →
          x.1.pos = pz.pos + 1 → x.1.s = pz.s → x.2.2 = some St.scanText →
          pzMeasure st1 pz1 < pzMeasure St.setDSVar pz := by
        intro x hx hp hs ho
        subst hx
        dsimp only at hp hs ho
        rw [Option.some.injEq] at ho
        subst ho
        dsimp only [pzMeasure, rankSt]
        rw [hp, hs]
        omega
      by_cases hA : 65 ≤ c ∧ c ≤ 90
      · rw [dif_pos hA] at h
        exact Or.inl (hcl _ h rfl rfl rfl)
      · rw [dif_neg hA] at h
        by_cases ha : 97 ≤ c ∧ c ≤ 122
        · rw [dif_pos ha] at h
          exact Or.inl (hcl _ h rfl rfl rfl)
        · rw [dif_neg ha] at h
          exact Or.inl (hcl _ h rfl rfl rfl)
  case getDSVar =>
    replace h : getDSVarF pz sv = (pz1, sv1, some st1) := h
    rcases hg : pz.s.get? pz.pos with _ | c
    · unfold getDSVarF at h
      rw [hg] at h
      simp at h
    · have hpos : pz.pos < pz.s.length := get?_some_lt hg
      unfold getDSVarF at h
      rw [hg] at h
      dsimp only at h
      have hcl : ∀ x : Pz × Bank × Option St, x = (pz1, sv1, some st1) →
          x.1.pos = pz.pos + 1 → x.1.s = pz.s → x.2.2 = some St.scanText →
          pzMeasure st1 pz1 < pzMeasure St.getDSVar pz := by
        intro x hx hp hs ho
        subst hx
        dsimp only at hp hs ho
        rw [Option.some.injEq] at ho
        subst ho
        dsimp only [pzMeasure, rankSt]
        rw [hp, hs]
        omega
      by_cases hA : 65 ≤ c ∧ c ≤ 90
      · rw [dif_pos hA] at h
        exact Or.inl (hcl _ h rfl rfl rfl)
      · rw [dif_neg hA] at h
        by_cases ha : 97 ≤ c ∧ c ≤ 122
        · rw [dif_pos ha] at h
          exact Or.inl (hcl _ h rfl rfl rfl)
        · rw [dif_neg ha] at h
          exact Or.inl (hcl _ h rfl rfl rfl)
  case pushInt =>
    replace h : pushIntF pz = (pz1, some st1) := split_step h
    have hle := length_takeWhile_le (fun c => 48 ≤ c && c ≤ 57) (pz.s.drop pz.pos)
    have hdr : (pz.s.drop pz.pos).length = pz.s.length - pz.pos := by simp
    unfold pushIntF at h
    dsimp only at h
    split at h
    · simp at h
    · simp only [Prod.mk.injEq, Option.some.injEq] at h
      obtain ⟨h1, h3⟩ := h
      subst h1
      subst h3
      left
      dsimp only [pzMeasure, rankSt]
      omega
  case scanThen =>
    replace h : scanThenF pz = (pz1, some st1) := split_step h
    unfold scanThenF at h
    by_cases hp : pz.pos ≤ pz.s.length
    · split at h
      all_goals
        (simp only [Prod.mk.injEq, Option.some.injEq] at h
         obtain ⟨h1, h3⟩ := h
         subst h1
         subst h3
         left
         dsimp only [pzMeasure, rankSt]
         omega)
    · right
      intro sv2
      split at h
      all_goals
        simp only [Prod.mk.injEq, Option.some.injEq] at h
      all_goals
        obtain ⟨h1, h3⟩ := h
      · subst h1
        subst h3
        show (scanTextF _).2 = none
        exact scanTextF_halts_past_end _ (by dsimp only; omega)
      · subst h1
        subst h3
        show (skipTextF _).2 = none
        exact skipTextF_halts_past_end _ (by dsimp only; omega)
  case skipText =>
    replace h : skipTextF pz = (pz1, some st1) := split_step h
    have hle := length_takeWhile_le (fun c => decide (c ≠ 37)) (pz.s.drop pz.pos)
    have hdr : (pz.s.drop pz.pos).length = pz.s.length - pz.pos := by simp
    unfold skipTextF at h
    dsimp only at h
    split at h
    · simp at h
    · rcases hse : pz.skipElse with _ | _
      · rw [hse, if_neg (by simp)] at h
        simp only [Prod.mk.injEq, Option.some.injEq] at h
        obtain ⟨h1, h3⟩ := h
        subst h1
        subst h3
        left
        dsimp only [pzMeasure, rankSt]
        omega
      · rw [hse, if_pos rfl] at h
        simp only [Prod.mk.injEq, Option.some.injEq] at h
        obtain ⟨h1, h3⟩ := h
        subst h1
        subst h3
        left
        dsimp only [pzMeasure, rankSt]
        omega
  case skipThen =>
    rcases hg : pz.s.get? pz.pos with _ | c
    · replace h : skipThenF pz = (pz1, some st1) := split_step h
      unfold skipThenF at h
      rw [hg] at h
      simp at h
    · have hpos : pz.pos < pz.s.length := get?_some_lt hg
      replace h : skipThenF pz = (pz1, some st1) := split_step h
      unfold skipThenF at h
      rw [hg] at h
      dsimp only at h
      repeat' split at h
      all_goals
        (simp only [Prod.mk.injEq, Option.some.injEq] at h
         obtain ⟨h1, h3⟩ := h
         subst h1
         subst h3
         left
         dsimp only [pzMeasure, rankSt]
         omega)
  case skipElse =>
    rcases hg : pz.s.get? pz.pos with _ | c
    · replace h : skipElseF pz = (pz1, some st1) := split_step h
      unfold skipElseF at h
      rw [hg] at h
      simp at h
    · have hpos : pz.pos < pz.s.length := get?_some_lt hg
      replace h : skipElseF pz = (pz1, some st1) := split_step h
      unfold skipElseF at h
      rw [hg] at h
      dsimp only at h
      repeat' split at h
      all_goals
        (simp only [Prod.mk.injEq, Option.some.injEq] at h
         obtain ⟨h1, h3⟩ := h
         subst h1
         subst h3
         left
         dsimp only [pzMeasure, rankSt]
         omega)

theorem runLoop_none_mono : ∀ (n m : Nat), n ≤ m → ∀ (st : St) (pz : Pz) (sv : Bank),
    (runLoop n st pz sv).2.2 = none → (runLoop m st pz sv).2.2 = none := by
  intro n
  induction n with
  | zero =>
    intro m _ st pz sv h
    simp [runLoop] at h
  | succ k ih =>
    intro m hm st pz sv h
    obtain ⟨m1, rfl⟩ : ∃ m1, m = m1 + 1 := ⟨m - 1, by omega⟩
    rw [runLoop_succ] at h ⊢
    rcases hs : stepF st pz sv with ⟨pz1, sv1, ost⟩
    rw [hs] at h
    cases ost with
    | none => simp
    | some st1 =>
      dsimp only at h ⊢
      exact ih m1 (by omega) st1 pz1 sv1 h

theorem runLoop_halts_aux : ∀ (n : Nat) (st : St) (pz : Pz) (sv : Bank),
    pzMeasure st pz ≤ n → (runLoop (n + 2) st pz sv).2.2 = none := by
  intro n
  induction n using Nat.strong_induction_on with
  | _ n ih =>
    intro st pz sv hn
    rw [show n + 2 = (n + 1) + 1 from rfl, runLoop_succ]
    rcases hs : stepF st pz sv with ⟨pz1, sv1, ost⟩
    cases ost with
    | none => simp
    | some st1 =>
      dsimp only
      rcases stepF_progress st pz sv pz1 sv1 st1 hs with hlt | hhalt
      · have hμ : pzMeasure st1 pz1 ≤ n - 1 := by omega
        have hn1 : 1 ≤ n := by omega
        have := ih (n - 1) (by omega) st1 pz1 sv1 hμ
        exact runLoop_none_mono (n - 1 + 2) (n + 1) (by omega) st1 pz1 sv1 this
      · rw [runLoop_succ]
        rcases hs2 : stepF st1 pz1 sv1 with ⟨pz2, sv2, ost2⟩
        have := hhalt sv1
        rw [hs2] at this
        dsimp only at this
        subst this
        simp

theorem runLoop_pos_mono (n : Nat) : ∀ (st : St) (pz : Pz) (sv : Bank),
    pz.pos ≤ ((runLoop n st pz sv).1).pos := by
  induction n with
  | zero =>
    intro st pz sv
    simp [runLoop]
  | succ k ih =>
    intro st pz sv
    rw [runLoop_succ]
    rcases hs : stepF st pz sv with ⟨pz1, sv1, ost⟩
    have h1 : pz.pos ≤ pz1.pos := by
      have := stepF_pos_mono st pz sv
      rw [hs] at this
      exact this
    cases ost with
    | none => exact h1
    | some st1 => exact le_trans h1 (ih st1 pz1 sv1)

/-- C8: the evaluator terminates on every template and parameter list: the
run loop of state functions reaches the halt state (`none`) within the
explicit step budget `fuelFor` (so `Parm` computes the full expansion), and
the scanner's cursor position never decreases across any number of steps,
from any configuration — including malformed templates with unbalanced
conditionals. -/
theorem C8_termination :
    (∀ (s : List Nat) (ps : List V) (sv : Bank),
      (runLoop (fuelFor s) St.scanText (initPz s ps) sv).2.2 = none) ∧
    (∀ (n : Nat) (st : St) (pz : Pz) (sv : Bank),
      pz.pos ≤ ((runLoop n st pz sv).1).pos) := by
  constructor
  · intro s ps sv
    have hμ : pzMeasure St.scanText (initPz s ps) = 2 * (s.length + 1) := by
      dsimp only [pzMeasure, rankSt, initPz]
      omega
    have := runLoop_halts_aux (2 * (s.length + 1)) St.scanText (initPz s ps) sv (by omega)
    exact this
  · intro n st pz sv
    exact runLoop_pos_mono n st pz sv

/-- C9: a template with no `%` byte expands to itself, for every parameter
list and every state of the static bank: `scanText` copies the whole
template and the scanner halts. -/
theorem C9_literal_identity (sv : Bank) (s : List Nat) (ps : List V)
    (h : noPctByte s) : Parm sv s ps = s := by
  have htw : s.takeWhile (fun c => decide (c ≠ 37)) = s :=
    List.takeWhile_eq_self_iff.mpr (fun a ha => by simpa using h a ha)
  have hstep : stepF St.scanText (initPz s ps) sv =
      ({ initPz s ps with buf := s, pos := s.length }, sv, none) := by
    simp only [stepF, scanTextF, initPz]
    simp only [List.drop_zero, htw]
    simp
  unfold Parm fuelFor
  rw [show 2 * (s.length + 1) + 2 = (2 * (s.length + 1) + 1) + 1 from rfl, runLoop_succ, hstep]

theorem C9_witness :
    noPctByte (strBytes "terminfo") ∧
      Parm nilBank (strBytes "terminfo") [V.i 3] = strBytes "terminfo" :=
  ⟨by decide, C9_literal_identity nilBank (strBytes "terminfo") [V.i 3] (by decide)⟩

/-! Lemmas for the noninterference theorem: with the static bank threaded
separately, every state function except `getDSVar` produces a scanner state
and successor state that do not depend on the bank. -/

theorem stepF_sv_indep (st : St) (pz : Pz) (sv1 sv2 : Bank) (hne : st ≠ St.getDSVar) :
    (stepF st pz sv1).1 = (stepF st pz sv2).1 ∧
    (stepF st pz sv1).2.2 = (stepF st pz sv2).2.2 := by
  cases st
  case setDSVar =>
    show (setDSVarF pz sv1).1 = (setDSVarF pz sv2).1 ∧
      (setDSVarF pz sv1).2.2 = (setDSVarF pz sv2).2.2
    unfold setDSVarF
    rcases hg : pz.s.get? pz.pos with _ | c
    · exact ⟨rfl, rfl⟩
    · dsimp only
      by_cases hA : 65 ≤ c ∧ c ≤ 90
      · rw [dif_pos hA, dif_pos hA]
        exact ⟨rfl, rfl⟩
      · rw [dif_neg hA, dif_neg hA]
        by_cases ha : 97 ≤ c ∧ c ≤ 122
        · rw [dif_pos ha, dif_pos ha]
          exact ⟨rfl, rfl⟩
        · rw [dif_neg ha, dif_neg ha]
          exact ⟨rfl, rfl⟩
  case getDSVar => exact absurd rfl hne
  all_goals exact ⟨rfl, rfl⟩

/-- Only `scanText` hands control to `scanCode`, and it does so right after
consuming a `%` byte. -/
theorem stepF_to_scanCode (st : St) (pz : Pz) (sv : Bank) (pz1 : Pz) (sv1 : Bank)
    (h : stepF st pz sv = (pz1, sv1, some St.scanCode)) :
    1 ≤ pz1.pos ∧ pz1.s[pz1.pos - 1]?.getD 0 = 37 := by
  cases st
  case scanText =>
    replace h : scanTextF pz = (pz1, some St.scanCode) := split_step h
    have hle := length_takeWhile_le (fun c => decide (c ≠ 37)) (pz.s.drop pz.pos)
    have hdr : (pz.s.drop pz.pos).length = pz.s.length - pz.pos := by simp
    unfold scanTextF at h
    dsimp only at h
    split at h
    · simp at h
    · simp only [Prod.mk.injEq, Option.some.injEq] at h
      obtain ⟨h1, _⟩ := h
      subst h1
      have hb := takeWhile_boundary (fun c => decide (c ≠ 37)) (pz.s.drop pz.pos) (by omega)
      rw [getD_of_drop] at hb
      simp only [decide_eq_false_iff_not, not_not] at hb
      refine ⟨by dsimp only; omega, ?_⟩
      dsimp only
      simpa using hb
  case scanCode =>
    replace h : scanCodeF pz = (pz1, some St.scanCode) := split_step h
    unfold scanCodeF at h
    rcases hg : pz.s.get? pz.pos with _ | c
    · rw [hg] at h
      simp at h
    · rw [hg] at h
      dsimp only [emit, pushV, goSub, arith2, cmp2, logic2] at h
      repeat' split at h
      all_goals simp at h
  case scanFormat =>
    replace h : scanFormatF pz = (pz1, some St.scanCode) := split_step h
    unfold scanFormatF at h
    dsimp only at h
    repeat' split at h
    all_goals simp at h
  case pushParam =>
    replace h : pushParamF pz = (pz1, some St.scanCode) := split_step h
    unfold pushParamF at h
    rcases hg : pz.s.get? pz.pos with _ | c
    · rw [hg] at h
      simp at h
    · rw [hg] at h
      dsimp only at h
      by_cases hlt : (c + 256 - 49) % 256 < 9
      · rw [dif_pos hlt] at h
        simp at h
      · rw [dif_neg hlt] at h
        simp at h
  case setDSVar =>
    replace h : setDSVarF pz sv = (pz1, sv1, some St.scanCode) := h
    unfold setDSVarF at h
    rcases hg : pz.s.get? pz.pos with _ | c
    · rw [hg] at h
      simp at h
    · rw [hg] at h
      dsimp only at h
      by_cases hA : 65 ≤ c ∧ c ≤ 90
      · rw [dif_pos hA] at h
        simp at h
      · rw [dif_neg hA] at h
        by_cases ha : 97 ≤ c ∧ c ≤ 122
        · rw [dif_pos ha] at h
          simp at h
        · rw [dif_neg ha] at h
          simp at h
  case getDSVar =>
    replace h : getDSVarF pz sv = (pz1, sv1, some St.scanCode) := h
    unfold getDSVarF at h
    rcases hg : pz.s.get? pz.pos with _ | c
    · rw [hg] at h
      simp at h
    · rw [hg] at h
      dsimp only at h
      by_cases hA : 65 ≤ c ∧ c ≤ 90
      · rw [dif_pos hA] at h
        simp at h
      · rw [dif_neg hA] at h
        by_cases ha : 97 ≤ c ∧ c ≤ 122
        · rw [dif_pos ha] at h
          simp at h
        · rw [dif_neg ha] at h
          simp at h
  case pushInt =>
    replace h : pushIntF pz = (pz1, some St.scanCode) := split_step h
    unfold pushIntF at h
    dsimp only at h
    split at h
    all_goals simp at h
  case scanThen =>
    replace h : scanThenF pz = (pz1, some St.scanCode) := split_step h
    unfold scanThenF at h
    split at h
    all_goals simp at h
  case skipText =>
    replace h : skipTextF pz = (pz1, some St.scanCode) := split_step h
    unfold skipTextF at h
    dsimp only at h
    split at h
    · simp at h
    · rcases hse : pz.skipElse with _ | _
      · rw [hse, if_neg (by simp)] at h
        simp at h
      · rw [hse, if_pos rfl] at h
        simp at h
  case skipThen =>
    replace h : skipThenF pz = (pz1, some St.scanCode) := split_step h
    unfold skipThenF at h
    rcases hg : pz.s.get? pz.pos with _ | c
    · rw [hg] at h
      simp at h
    · rw [hg] at h
      dsimp only at h
      repeat' split at h
      all_goals simp at h
  case skipElse =>
    replace h : skipElseF pz = (pz1, some St.scanCode) := split_step h
    unfold skipElseF at h
    rcases hg : pz.s.get? pz.pos with _ | c
    · rw [hg] at h
      simp at h
    · rw [hg] at h
      dsimp only at h
      repeat' split at h
      all_goals simp at h

/-- Only `scanCode` dispatches to `getDSVar`, and only on the byte `g`. -/
theorem stepF_to_getDSVar (st : St) (pz : Pz) (sv : Bank) (pz1 : Pz) (sv1 : Bank)
    (h : stepF st pz sv = (pz1, sv1, some St.getDSVar)) :
    st = St.scanCode ∧ pz.s.get? pz.pos = some 103 := by
  cases st
  case scanCode =>
    replace h : scanCodeF pz = (pz1, some St.getDSVar) := split_step h
    unfold scanCodeF at h
    rcases hg : pz.s.get? pz.pos with _ | c
    · rw [hg] at h
      simp at h
    · rw [hg] at h
      dsimp only [emit, pushV, goSub, arith2, cmp2, logic2] at h
      repeat' split at h
      all_goals
        first
        | (exfalso
           simp at h
           done)
        | (exact ⟨rfl, by simp [hg]⟩)
  case scanText =>
    replace h : scanTextF pz = (pz1, some St.getDSVar) := split_step h
    unfold scanTextF at h
    dsimp only at h
    split at h
    all_goals simp at h
  case scanFormat =>
    replace h : scanFormatF pz = (pz1, some St.getDSVar) := split_step h
    unfold scanFormatF at h
    dsimp only at h
    repeat' split at h
    all_goals simp at h
  case pushParam =>
    replace h : pushParamF pz = (pz1, some St.getDSVar) := split_step h
    unfold pushParamF at h
    rcases hg : pz.s.get? pz.pos with _ | c
    · rw [hg] at h
      simp at h
    · rw [hg] at h
      dsimp only at h
      by_cases hlt : (c + 256 - 49) % 256 < 9
      · rw [dif_pos hlt] at h
        simp at h
      · rw [dif_neg hlt] at h
        simp at h
  case setDSVar =>
    replace h : setDSVarF pz sv = (pz1, sv1, some St.getDSVar) := h
    unfold setDSVarF at h
    rcases hg : pz.s.get? pz.pos with _ | c
    · rw [hg] at h
      simp at h
    · rw [hg] at h
      dsimp only at h
      by_cases hA : 65 ≤ c ∧ c ≤ 90
      · rw [dif_pos hA] at h
        simp at h
      · rw [dif_neg hA] at h
        by_cases ha : 97 ≤ c ∧ c ≤ 122
        · rw [dif_pos ha] at h
          simp at h
        · rw [dif_neg ha] at h
          simp at h
  case getDSVar =>
    replace h : getDSVarF pz sv = (pz1, sv1, some St.getDSVar) := h
    unfold getDSVarF at h
    rcases hg : pz.s.get? pz.pos with _ | c
    · rw [hg] at h
      simp at h
    · rw [hg] at h
      dsimp only at h
      by_cases hA : 65 ≤ c ∧ c ≤ 90
      · rw [dif_pos hA] at h
        simp at h
      · rw [dif_neg hA] at h
        by_cases ha : 97 ≤ c ∧ c ≤ 122
        · rw [dif_pos ha] at h
          simp at h
        · rw [dif_neg ha] at h
          simp at h
  case pushInt =>
    replace h : pushIntF pz = (pz1, some St.getDSVar) := split_step h
    unfold pushIntF at h
    dsimp only at h
    split at h
    all_goals simp at h
  case scanThen =>
    replace h : scanThenF pz = (pz1, some St.getDSVar) := split_step h
    unfold scanThenF at h
    split at h
    all_goals simp at h
  case skipText =>
    replace h : skipTextF pz = (pz1, some St.getDSVar) := split_step h
    unfold skipTextF at h
    dsimp only at h
    split at h
    · simp at h
    · rcases hse : pz.skipElse with _ | _
      · rw [hse, if_neg (by simp)] at h
        simp at h
      · rw [hse, if_pos rfl] at h
        simp at h
  case skipThen =>
    replace h : skipThenF pz = (pz1, some St.getDSVar) := split_step h
    unfold skipThenF at h
    rcases hg : pz.s.get? pz.pos with _ | c
    · rw [hg] at h
      simp at h
    · rw [hg] at h
      dsimp only at h
      repeat' split at h
      all_goals simp at h
  case skipElse =>
    replace h : skipElseF pz = (pz1, some St.getDSVar) := split_step h
    unfold skipElseF at h
    rcases hg : pz.s.get? pz.pos with _ | c
    · rw [hg] at h
      simp at h
    · rw [hg] at h
      dsimp only at h
      repeat' split at h
      all_goals simp at h

theorem runLoop_sv_indep : ∀ (n : Nat) (st : St) (pz : Pz) (sv1 sv2 : Bank),
    noDSVarDirective pz.s →
    (st = St.scanCode → 1 ≤ pz.pos ∧ pz.s[pz.pos - 1]?.getD 0 = 37) →
    st ≠ St.getDSVar →
    (runLoop n st pz sv1).1 = (runLoop n st pz sv2).1 ∧
    (runLoop n st pz sv1).2.2 = (runLoop n st pz sv2).2.2 := by
  intro n
  induction n with
  | zero =>
    intro st pz sv1 sv2 _ _ _
    exact ⟨rfl, rfl⟩
  | succ k ih =>
    intro st pz sv1 sv2 hnp hiv hne
    rw [runLoop_succ, runLoop_succ]
    obtain ⟨hpz, hst⟩ := stepF_sv_indep st pz sv1 sv2 hne
    rcases h1 : stepF st pz sv1 with ⟨pza, sva, osta⟩
    rcases h2 : stepF st pz sv2 with ⟨pzb, svb, ostb⟩
    rw [h1, h2] at hpz hst
    dsimp only at hpz hst
    subst hpz
    subst hst
    cases osta with
    | none => exact ⟨rfl, rfl⟩
    | some st1 =>
      dsimp only
      have hseq : pza.s = pz.s := by
        have := stepF_s_eq st pz sv1
        rw [h1] at this
        exact this
      refine ih st1 pza sva svb ?_ ?_ ?_
      · rw [hseq]
        exact hnp
      · intro hsc
        subst hsc
        exact stepF_to_scanCode st pz sv1 pza sva h1
      · intro hgd
        subst hgd
        obtain ⟨hstc, hc⟩ := stepF_to_getDSVar st pz sv1 pza sva h1
        obtain ⟨hp1, hp37⟩ := hiv hstc
        have hlt : pz.pos < pz.s.length := get?_some_lt hc
        refine absurd ?_ (hnp (pz.pos - 1) (by omega))
        refine ⟨hp37, Or.inr ?_⟩
        have hpp : pz.pos - 1 + 1 = pz.pos := by omega
        rw [hpp]
        have : pz.s[pz.pos]? = some 103 := by
          rw [← List.get?_eq_getElem?]
          exact hc
        rw [this]
        rfl

/-- C10: for a template containing no `%P` and no `%g` directive, the
output of `Parm` does not depend on the contents of the process-wide static
variable bank: runs started from any two bank states produce identical
byte strings. -/
theorem C10_static_noninterference (s : List Nat) (ps : List V) (sv1 sv2 : Bank)
    (h : noDSVarDirective s) : Parm sv1 s ps = Parm sv2 s ps := by
  unfold Parm
  exact congrArg Pz.buf
    (runLoop_sv_indep (fuelFor s) St.scanText (initPz s ps) sv1 sv2 h
      (by simp) (by simp)).1

theorem C10_witness :
    noDSVarDirective (strBytes "%p1%dx%p2%d") ∧
      Parm (Function.update nilBank 0 (V.i 7)) (strBytes "%p1%dx%p2%d") [V.i 1, V.i 2] =
        Parm nilBank (strBytes "%p1%dx%p2%d") [V.i 1, V.i 2] :=
  ⟨by decide,
    C10_static_noninterference (strBytes "%p1%dx%p2%d") [V.i 1, V.i 2]
      (Function.update nilBank 0 (V.i 7)) nilBank (by decide)⟩

end Terminfo

